import Mathlib

/-!
Verification development for the `denoise-pix2pix` data pipeline.

The repository consists of two Python modules:

* `datasets.py` — case resolution (`load_case`), per-volume normalization
  (`normalize`) and dataset assembly (`DataLoader`), with 2-D slice
  resampling done by `cv2.resize(..., INTER_NEAREST)` followed by
  `np.expand_dims(..., axis=-1).astype('float32')`;
* `plot_utils.py` — quality metrics: `calc_psvol` (per-slice PSNR/SSIM)
  and `mae_calc` (mean absolute error via numpy broadcasting).

Numeric values are embedded as rationals (`ℚ`), the usual exact-arithmetic
idealization of numpy floating point.  Where the floating-point special
values are themselves the property under study (NaN propagation of a
division by zero, NaN mean of an empty array) a small IEEE-flavoured
value type `FV` is used instead, so that NaN is represented honestly
rather than being masked by the `x / 0 = 0` convention of `ℚ`.

Python exceptions are embedded with `Except PyErr`; an `Except.error`
result models "the call raised, no value was returned".
-/

namespace Denoise

/-- Python exceptions that the embedded code can raise.
`notFound` models the `IndexError` raised by `path_list[0]` when a glob
returns no match (the spec's `NotFoundError`); `indexError` models an
out-of-range numpy/list subscript; `nameError` models Python's
`NameError` for an unbound identifier; `shapeMismatch` models numpy's
`ValueError: operands could not be broadcast together` (the spec's
`ShapeMismatchError`). -/
inductive PyErr where
  | notFound
  | indexError
  | nameError
  | shapeMismatch
  deriving DecidableEq

/-- A 2-D slice: a list of rows of rational intensities. -/
abbrev Slice := List (List ℚ)

/-- A 3-D volume with axis order (slice, row, column). -/
abbrev Volume := List Slice

/-- Concatenation of a list of lists (row-major flattening one level). -/
def cat {α : Type} : List (List α) → List α
  | [] => []
  | l :: ls => l ++ cat ls

/-- Flatten a 3-D nested list to the list of its scalar entries. -/
def flat3 {α : Type} (v : List (List (List α))) : List α :=
  cat (v.map cat)

/-- Elementwise map over a 3-D nested list (a numpy broadcasted
unary/affine operation applied to a 3-D array). -/
def map3 {α β : Type} (f : α → β) (v : List (List (List α))) :
    List (List (List β)) :=
  v.map (List.map (List.map f))

/-- Maximum entry of a list of rationals (`ndarray.max()`); numpy raises
on an empty array, the `[]` case is a junk default never relied upon. -/
def listMax : List ℚ → ℚ
  | [] => 0
  | [x] => x
  | x :: y :: t => max x (listMax (y :: t))

/-- Minimum entry of a list of rationals (`ndarray.min()`); numpy raises
on an empty array, the `[]` case is a junk default never relied upon. -/
def listMin : List ℚ → ℚ
  | [] => 0
  | [x] => x
  | x :: y :: t => min x (listMin (y :: t))

/-- Embedding of `im.min()` on a 3-D volume. -/
def vmin (v : Volume) : ℚ := listMin (flat3 v)

/-- Embedding of `im.max()` on a 3-D volume. -/
def vmax (v : Volume) : ℚ := listMax (flat3 v)

/-- Source `datasets.py`, `normalize`: `im = (((im - im.min())/(im.max()-im.min()))*2)-1`,
an elementwise affine rescale by the volume's own extrema
(exact-arithmetic idealization; the degenerate divisor is studied
separately with `normalizeFV`). -/
def normalize (im : Volume) : Volume :=
  map3 (fun x => ((x - vmin im) / (vmax im - vmin im)) * 2 - 1) im

/-- Splitting a character list on `'_'` (Python `str.split('_')`):
`splitUnder "a_b".data = ["a".data, "b".data]`, and the empty string
splits to one empty field. -/
def splitUnder : List Char → List (List Char)
  | [] => [[]]
  | c :: cs =>
    if c = '_' then [] :: splitUnder cs
    else
      match splitUnder cs with
      | [] => [[c]]
      | t :: ts => (c :: t) :: ts

/-- Source `datasets.py`, `load_case` line `case_num = case_name.split('_')[-1]`:
the last `_`-delimited token of the case name. -/
def caseNum (case_name : String) : String :=
  ⟨(splitUnder case_name.data).getLastD []⟩

/-- A directory's contents: file names paired with the volume decoded
from that file (the volumetric codec `sitk.ReadImage`/`GetArrayFromImage`
is a black box, so a directory is modelled as the map it induces). -/
abbrev Dir := List (String × Volume)

/-- Embedding of `glob.glob(f"{dir}/{case_num}.nii.gz")` followed by `path_list[0]` and
decoding: the first file whose name equals the key, or the error raised
by subscripting an empty match list. -/
def globFirst (dir : Dir) (fname : String) : Except PyErr Volume :=
  match (dir.filter (fun p => p.1 = fname)).head? with
  | none => .error .notFound
  | some p => .ok p.2

/-- Source `datasets.py`, `load_case` (the `preprocess=False` path used by
`DataLoader`): derive the case number, read the high-res volume from the
high-res directory, then the low-res volume from the low-res directory,
and return `(inp, target)`. -/
def load_case (fsHigh fsLow : Dir) (case_name : String) :
    Except PyErr (Volume × Volume) :=
  let key := caseNum case_name ++ ".nii.gz"
  match globFirst fsHigh key with
  | .error e => .error e
  | .ok target =>
    match globFirst fsLow key with
    | .error e => .error e
    | .ok inp => .ok (inp, target)

/-- Element dtypes produced by the pipeline; `.astype('float32')` tags an
array as 32-bit floating point. -/
inductive DType where
  | float32
  | float64
  | int16
  deriving DecidableEq

/-- A 3-D array together with its element dtype, the result of one
`np.expand_dims(cv2.resize(...), axis=-1).astype('float32')`. -/
structure Arr3 where
  data : List (List (List ℚ))
  dtype : DType
  deriving DecidableEq

/-- Embedding of `cv2.resize(src, dsize, interpolation=INTER_NEAREST)`.  Per OpenCV,
`dsize` is `(width, height)`: the output has `dsize.2` rows and `dsize.1`
columns, each output pixel taken from the nearest source pixel
(`floor(dst * src/dst)`, clamped).  OpenCV rejects an empty source or a
zero `dsize`; theorems about this model therefore assume a nonempty
source and positive target extents. -/
def cv2Resize (src : Slice) (dsize : ℕ × ℕ) : Slice :=
  let w := dsize.1
  let h := dsize.2
  let sh := src.length
  let sw := (src.headD []).length
  (List.range h).map fun r =>
    (List.range w).map fun c =>
      (src.getD (min (r * sh / h) (sh - 1)) []).getD (min (c * sw / w) (sw - 1)) 0

/-- Embedding of `np.expand_dims(s, axis=-1)`: append a trailing channel axis of
size 1 to a 2-D array. -/
def expandDimsLast (s : Slice) : List (List (List ℚ)) :=
  s.map (fun row => row.map (fun q => [q]))

/-- The slice-resampling operation shared by `load_case` (lines 30–31)
and `DataLoader` (lines 55–56):
`np.expand_dims(cv2.resize(s, shape, interpolation=cv2.INTER_NEAREST), axis=-1).astype('float32')`. -/
def resample (s : Slice) (shape : ℕ × ℕ) : Arr3 :=
  ⟨expandDimsLast (cv2Resize s shape), DType.float32⟩

/-- The per-case inner loop of `DataLoader` (lines 54–58):
`for i in range(len(X1))`, resampling `X1[i]` and `X2[i]` and appending
to the two running sequences.  Indexing `X2[i]` past its end raises
`IndexError`; trailing elements of `X2` beyond `len(X1)` are never
visited. -/
def processCase (shape : ℕ × ℕ) : Volume → Volume → Except PyErr (List Arr3 × List Arr3)
  | [], _ => .ok ([], [])
  | _ :: _, [] => .error .indexError
  | s1 :: r1, s2 :: r2 =>
    match processCase shape r1 r2 with
    | .error e => .error e
    | .ok (a, b) => .ok (resample s1 shape :: a, resample s2 shape :: b)

/-- Source `datasets.py`, `DataLoader`: for each case in list order, load both
volumes, normalize each by its own extrema, resample every slice, and
append to the running `inp_img`/`tar_img` sequences.  An exception in
any case propagates and no dataset is returned. -/
def DataLoader (fsHigh fsLow : Dir) (case_list : List String) (shape : ℕ × ℕ) :
    Except PyErr (List Arr3 × List Arr3) :=
  match case_list with
  | [] => .ok ([], [])
  | case_name :: rest =>
    match load_case fsHigh fsLow case_name with
    | .error e => .error e
    | .ok (X1, X2) =>
      match processCase shape (normalize X1) (normalize X2) with
      | .error e => .error e
      | .ok (a, b) =>
        match DataLoader fsHigh fsLow rest shape with
        | .error e => .error e
        | .ok (ra, rb) => .ok (a ++ ra, b ++ rb)

/-- An IEEE-flavoured scalar for the places where floating-point special
values are the property under study: a finite rational, NaN, or a signed
infinity.  Signed zeros are not modelled (`ℚ` has a single zero), which
is adequate here because the embedded code never divides a negative
finite numerator by zero. -/
inductive FV where
  | fin (q : ℚ)
  | nan
  | pinf
  | ninf
  deriving DecidableEq

/-- IEEE-style subtraction on `FV`. -/
def FV.sub : FV → FV → FV
  | .nan, _ => .nan
  | _, .nan => .nan
  | .fin a, .fin b => .fin (a - b)
  | .fin _, .pinf => .ninf
  | .fin _, .ninf => .pinf
  | .pinf, .pinf => .nan
  | .pinf, _ => .pinf
  | .ninf, .ninf => .nan
  | .ninf, _ => .ninf

/-- IEEE-style multiplication on `FV`. -/
def FV.mul : FV → FV → FV
  | .nan, _ => .nan
  | _, .nan => .nan
  | .fin a, .fin b => .fin (a * b)
  | .pinf, .fin b => if 0 < b then .pinf else if b < 0 then .ninf else .nan
  | .ninf, .fin b => if 0 < b then .ninf else if b < 0 then .pinf else .nan
  | .fin a, .pinf => if 0 < a then .pinf else if a < 0 then .ninf else .nan
  | .fin a, .ninf => if 0 < a then .ninf else if a < 0 then .pinf else .nan
  | .pinf, .pinf => .pinf
  | .pinf, .ninf => .ninf
  | .ninf, .pinf => .ninf
  | .ninf, .ninf => .pinf

/-- IEEE-style division on `FV`: `0/0 = NaN`, `±x/0 = ±∞`, `x/±∞ = 0`. -/
def FV.div : FV → FV → FV
  | .nan, _ => .nan
  | _, .nan => .nan
  | .fin a, .fin b =>
    if b = 0 then (if a = 0 then .nan else if 0 < a then .pinf else .ninf)
    else .fin (a / b)
  | .fin _, .pinf => .fin 0
  | .fin _, .ninf => .fin 0
  | .pinf, .fin b => if b < 0 then .ninf else .pinf
  | .ninf, .fin b => if b < 0 then .pinf else .ninf
  | .pinf, _ => .nan
  | .ninf, _ => .nan

/-- The `normalize` formula of `datasets.py` evaluated with IEEE-style
special values instead of the exact-arithmetic idealization: the same
`(((im - im.min())/(im.max()-im.min()))*2)-1` with the division, product
and differences taken in `FV`.  This refines `normalize` exactly where a
division by zero occurs (a constant-valued volume). -/
def normalizeFV (im : Volume) : List (List (List FV)) :=
  map3 (fun x =>
    FV.sub (FV.mul (FV.div (FV.fin (x - vmin im)) (FV.fin (vmax im - vmin im)))
        (FV.fin 2)) (FV.fin 1)) im

/-- Embedding of `s.max()` on a 2-D slice. -/
def sliceMax (s : Slice) : ℚ := listMax (cat s)

/-- Embedding of `s.min()` on a 2-D slice. -/
def sliceMin (s : Slice) : ℚ := listMin (cat s)

/-- The identifier `rangeD` as it evaluates inside `calc_psvol`'s loop in
`plot_utils.py`: the module never binds a name `rangeD` (line 13 binds
`range` instead), so looking it up raises `NameError`. -/
def rangeD : Except PyErr ℚ := .error .nameError

/-- Source `plot_utils.py`, `calc_psvol(high, low)`: for each `i` in
`range(len(high))`, bind `range = high[i].max() - high[i].min()`, then
evaluate `compare_psnr(high[i], low[i], data_range=rangeD)` and
`compare_ssim(high[i], low[i], data_range=rangeD)` and append.  Argument
evaluation order is `high[i]`, `low[i]`, then `rangeD`; subscripting
`low` past its end raises `IndexError`, and the unbound `rangeD` raises
`NameError`.  The external skimage metrics are black boxes, passed in as
the parameters `psnr` and `ssim` (slice, slice, data_range). -/
def calc_psvol (psnr ssim : Slice → Slice → ℚ → ℚ) :
    List Slice → List Slice → Except PyErr (List ℚ × List ℚ)
  | [], _ => .ok ([], [])
  | _ :: _, [] => .error .indexError
  | hSlice :: hs, lSlice :: ls =>
    let _range := sliceMax hSlice - sliceMin hSlice
    match rangeD with
    | .error e => .error e
    | .ok rd =>
      match calc_psvol psnr ssim hs ls with
      | .error e => .error e
      | .ok (ps, ss) =>
        .ok (psnr hSlice lSlice rd :: ps, ssim hSlice lSlice rd :: ss)

/-- A dense numpy array: a shape and its row-major flat data. -/
structure NDArr where
  shape : List ℕ
  data : List ℚ
  deriving DecidableEq

/-- Left-pad a shape with 1s to length `n` (numpy broadcasting aligns
shapes from the right). -/
def padShape (s : List ℕ) (n : ℕ) : List ℕ :=
  List.replicate (n - s.length) 1 ++ s

/-- Broadcast compatibility of two equal-length (padded) shapes: in each
dimension the extents agree or one of them is 1. -/
def bcOK (a b : List ℕ) : Bool :=
  (List.zip a b).all fun p => p.1 = p.2 || p.1 = 1 || p.2 = 1

/-- Broadcast compatibility of two arbitrary shapes, after padding. -/
def compatible (a b : List ℕ) : Bool :=
  let n := max a.length b.length
  bcOK (padShape a n) (padShape b n)

/-- All multi-indices of a shape, in row-major order. -/
def idxList : List ℕ → List (List ℕ)
  | [] => [[]]
  | d :: ds => cat ((List.range d).map fun i => (idxList ds).map (i :: ·))

/-- Row-major flat offset of a multi-index within a shape. -/
def flatIdx : List ℕ → List ℕ → ℕ
  | _ :: ds, i :: is => i * ds.prod + flatIdx ds is
  | _, _ => 0

/-- The element an array contributes at a broadcast multi-index: each
coordinate is reduced modulo the array's own (padded) extent, so a
dimension of extent 1 always reads index 0. -/
def fetchAt (a : NDArr) (pa : List ℕ) (ix : List ℕ) : ℚ :=
  a.data.getD (flatIdx pa (List.zipWith (fun i d => i % d) ix pa)) 0

/-- Numpy elementwise subtraction `a - b` with broadcasting; raises
`ValueError: operands could not be broadcast together` (embedded as
`shapeMismatch`) when the shapes are not broadcast-compatible. -/
def npSub (a b : NDArr) : Except PyErr NDArr :=
  let n := max a.shape.length b.shape.length
  let pa := padShape a.shape n
  let pb := padShape b.shape n
  if bcOK pa pb then
    let rs := List.zipWith max pa pb
    .ok ⟨rs, (idxList rs).map fun ix => fetchAt a pa ix - fetchAt b pb ix⟩
  else .error .shapeMismatch

/-- Embedding of `np.mean`: the sum of the entries divided by their count; per numpy
the mean of an empty array is NaN (a `0/0`), so the result lives in
`FV`. -/
def npMean (l : List ℚ) : FV :=
  if l.length = 0 then .nan else .fin (l.sum / l.length)

/-- Source `plot_utils.py`, `mae_calc(y_true, predictions)`:
`np.mean(np.abs(y_true - predictions))`. -/
def mae_calc (y_true predictions : NDArr) : Except PyErr FV :=
  match npSub y_true predictions with
  | .error e => .error e
  | .ok d => .ok (npMean (d.data.map (fun q => |q|)))

/-! ### Basic lemmas about the list-level helpers -/

theorem listMax_cons (x y : ℚ) (t : List ℚ) :
    listMax (x :: y :: t) = max x (listMax (y :: t)) := rfl

theorem listMin_cons (x y : ℚ) (t : List ℚ) :
    listMin (x :: y :: t) = min x (listMin (y :: t)) := rfl

theorem le_listMax {x : ℚ} : ∀ {l : List ℚ}, x ∈ l → x ≤ listMax l := by
  intro l
  induction l with
  | nil => intro h; cases h
  | cons a t ih =>
    intro h
    cases t with
    | nil =>
      rcases List.mem_cons.mp h with rfl | h2
      · exact le_refl _
      · cases h2
    | cons b t2 =>
      rw [listMax_cons]
      rcases List.mem_cons.mp h with rfl | h2
      · exact le_max_left _ _
      · exact le_trans (ih h2) (le_max_right _ _)

theorem listMin_le {x : ℚ} : ∀ {l : List ℚ}, x ∈ l → listMin l ≤ x := by
  intro l
  induction l with
  | nil => intro h; cases h
  | cons a t ih =>
    intro h
    cases t with
    | nil =>
      rcases List.mem_cons.mp h with rfl | h2
      · exact le_refl _
      · cases h2
    | cons b t2 =>
      rw [listMin_cons]
      rcases List.mem_cons.mp h with rfl | h2
      · exact min_le_left _ _
      · exact le_trans (min_le_right _ _) (ih h2)

theorem listMax_mem : ∀ {l : List ℚ}, l ≠ [] → listMax l ∈ l := by
  intro l
  induction l with
  | nil => intro h; exact absurd rfl h
  | cons a t ih =>
    intro _
    cases t with
    | nil => exact List.mem_singleton.mpr rfl
    | cons b t2 =>
      rw [listMax_cons]
      rcases max_cases a (listMax (b :: t2)) with ⟨heq, -⟩ | ⟨heq, -⟩
      · rw [heq]; exact List.mem_cons_self _ _
      · rw [heq]; exact List.mem_cons_of_mem _ (ih (by simp))

theorem listMin_mem : ∀ {l : List ℚ}, l ≠ [] → listMin l ∈ l := by
  intro l
  induction l with
  | nil => intro h; exact absurd rfl h
  | cons a t ih =>
    intro _
    cases t with
    | nil => exact List.mem_singleton.mpr rfl
    | cons b t2 =>
      rw [listMin_cons]
      rcases min_cases a (listMin (b :: t2)) with ⟨heq, -⟩ | ⟨heq, -⟩
      · rw [heq]; exact List.mem_cons_self _ _
      · rw [heq]; exact List.mem_cons_of_mem _ (ih (by simp))

theorem listMax_map_mono {f : ℚ → ℚ} (hf : Monotone f) :
    ∀ {l : List ℚ}, l ≠ [] → listMax (l.map f) = f (listMax l) := by
  intro l
  induction l with
  | nil => intro h; exact absurd rfl h
  | cons a t ih =>
    intro _
    cases t with
    | nil => rfl
    | cons b t2 =>
      have : (a :: b :: t2).map f = f a :: f b :: t2.map f := rfl
      rw [this, listMax_cons, listMax_cons]
      rw [show (f b :: t2.map f) = (b :: t2).map f from rfl]
      rw [ih (by simp), hf.map_max]

theorem listMin_map_mono {f : ℚ → ℚ} (hf : Monotone f) :
    ∀ {l : List ℚ}, l ≠ [] → listMin (l.map f) = f (listMin l) := by
  intro l
  induction l with
  | nil => intro h; exact absurd rfl h
  | cons a t ih =>
    intro _
    cases t with
    | nil => rfl
    | cons b t2 =>
      have : (a :: b :: t2).map f = f a :: f b :: t2.map f := rfl
      rw [this, listMin_cons, listMin_cons]
      rw [show (f b :: t2.map f) = (b :: t2).map f from rfl]
      rw [ih (by simp), hf.map_min]

theorem cat_map {α β : Type} (f : α → β) :
    ∀ ls : List (List α), cat (ls.map (List.map f)) = (cat ls).map f := by
  intro ls
  induction ls with
  | nil => rfl
  | cons l t ih => simp [cat, ih]

theorem cat_length {α : Type} :
    ∀ ls : List (List α), (cat ls).length = (ls.map List.length).sum := by
  intro ls
  induction ls with
  | nil => rfl
  | cons l t ih => simp [cat, ih]

theorem flat3_map3 {α β : Type} (f : α → β) (v : List (List (List α))) :
    flat3 (map3 f v) = (flat3 v).map f := by
  unfold flat3 map3
  rw [List.map_map]
  have : (cat ∘ List.map (List.map f)) = fun s => (cat s).map f := by
    funext s; exact cat_map f s
  rw [this]
  rw [show (fun s => (cat s).map f) = (List.map f ∘ cat) from rfl]
  rw [← List.map_map, cat_map]

theorem map3_length {α β : Type} (f : α → β) (v : List (List (List α))) :
    (map3 f v).length = v.length := by
  simp [map3]

theorem normalize_length (v : Volume) :
    (normalize v).length = v.length := by
  simp [normalize, map3]

/-! ### Core facts about `normalize` -/

theorem flat3_normalize (v : Volume) :
    flat3 (normalize v) =
      (flat3 v).map (fun x => ((x - vmin v) / (vmax v - vmin v)) * 2 - 1) :=
  flat3_map3 _ v

theorem vmin_lt_vmax {v : Volume} (hnd : vmin v ≠ vmax v) : vmin v < vmax v := by
  have hne : flat3 v ≠ [] := by
    intro h
    exact hnd (by simp [vmin, vmax, h, listMin, listMax])
  exact lt_of_le_of_ne (listMin_le (listMax_mem hne)) hnd

theorem normalize_mono {v : Volume} (hnd : vmin v ≠ vmax v) :
    Monotone (fun x : ℚ => ((x - vmin v) / (vmax v - vmin v)) * 2 - 1) := by
  have hd : (0:ℚ) < vmax v - vmin v := by
    have := vmin_lt_vmax hnd; linarith
  intro a b hab
  have h1 : (a - vmin v) / (vmax v - vmin v) ≤ (b - vmin v) / (vmax v - vmin v) :=
    (div_le_div_iff_of_pos_right hd).mpr (by linarith)
  simp only
  linarith

/-- Core behaviour of `normalize` on a non-degenerate volume: every output
entry lies in `[-1, 1]`, the output maximum is `1` and the output minimum
is `-1`. -/
theorem normalize_core (v : Volume) (hnd : vmin v ≠ vmax v) :
    (∀ x ∈ flat3 (normalize v), -1 ≤ x ∧ x ≤ 1) ∧
    vmax (normalize v) = 1 ∧ vmin (normalize v) = -1 := by
  have hne : flat3 v ≠ [] := by
    intro h
    exact hnd (by simp [vmin, vmax, h, listMin, listMax])
  have hlt := vmin_lt_vmax hnd
  have hd : (0:ℚ) < vmax v - vmin v := by linarith
  refine ⟨?_, ?_, ?_⟩
  · intro x hx
    rw [flat3_normalize] at hx
    obtain ⟨y, hy, rfl⟩ := List.mem_map.mp hx
    have h1 : vmin v ≤ y := listMin_le hy
    have h2 : y ≤ vmax v := le_listMax hy
    constructor
    · have : (0:ℚ) ≤ (y - vmin v) / (vmax v - vmin v) :=
        div_nonneg (by linarith) (le_of_lt hd)
      linarith
    · have : (y - vmin v) / (vmax v - vmin v) ≤ 1 :=
        (div_le_one hd).mpr (by linarith)
      linarith
  · rw [vmax, flat3_normalize, listMax_map_mono (normalize_mono hnd) hne]
    rw [show listMax (flat3 v) = vmax v from rfl]
    rw [div_self (ne_of_gt hd)]
    ring
  · rw [vmin, flat3_normalize, listMin_map_mono (normalize_mono hnd) hne]
    rw [show listMin (flat3 v) = vmin v from rfl]
    rw [sub_self, zero_div]
    ring

/-! ### Facts about `processCase` and `globFirst` -/

theorem processCase_trunc (shape : ℕ × ℕ) :
    ∀ (X1 X2 : Volume), X1.length ≤ X2.length →
      processCase shape X1 X2 =
        .ok (X1.map (fun s => resample s shape),
             (X2.take X1.length).map (fun s => resample s shape)) := by
  intro X1
  induction X1 with
  | nil => intro X2 _; simp [processCase]
  | cons s1 r1 ih =>
    intro X2 hlen
    cases X2 with
    | nil => simp at hlen
    | cons s2 r2 =>
      simp only [List.length_cons, Nat.succ_le_succ_iff] at hlen
      simp [processCase, ih r2 hlen]

theorem processCase_err (shape : ℕ × ℕ) :
    ∀ (X1 X2 : Volume), X2.length < X1.length →
      processCase shape X1 X2 = .error .indexError := by
  intro X1
  induction X1 with
  | nil => intro X2 h; simp at h
  | cons s1 r1 ih =>
    intro X2 hlen
    cases X2 with
    | nil => simp [processCase]
    | cons s2 r2 =>
      simp only [List.length_cons, Nat.succ_lt_succ_iff] at hlen
      simp [processCase, ih r2 hlen]

theorem globFirst_none {dir : Dir} {fname : String}
    (h : ∀ p ∈ dir, p.1 ≠ fname) : globFirst dir fname = .error .notFound := by
  have : dir.filter (fun p => p.1 = fname) = [] := by
    rw [List.filter_eq_nil_iff]
    intro p hp
    simp [h p hp]
  simp [globFirst, this]

theorem globFirst_ok {dir : Dir} {fname : String} {v : Volume}
    (h : globFirst dir fname = .ok v) : ∃ p ∈ dir, p.1 = fname ∧ p.2 = v := by
  unfold globFirst at h
  cases hfil : (dir.filter (fun p => p.1 = fname)).head? with
  | none => rw [hfil] at h; cases h
  | some p =>
    rw [hfil] at h
    obtain rfl : p.2 = v := by cases h; rfl
    have hmem : p ∈ dir.filter (fun p => p.1 = fname) := by
      have hcons := List.eq_cons_of_mem_head? (Option.mem_def.mpr hfil)
      rw [hcons]
      exact List.mem_cons_self _ _
    refine ⟨p, List.mem_of_mem_filter hmem, ?_, rfl⟩
    have := List.of_mem_filter hmem
    simpa using this

theorem globFirst_err {dir : Dir} {fname : String} {e : PyErr}
    (h : globFirst dir fname = .error e) : e = .notFound := by
  unfold globFirst at h
  cases hfil : (dir.filter (fun p => p.1 = fname)).head? with
  | none => rw [hfil] at h; cases h; rfl
  | some p => rw [hfil] at h; cases h

/-! ### Facts about the broadcasting helpers -/

theorem padShape_self (s : List ℕ) : padShape s s.length = s := by
  simp [padShape]

theorem bcOK_refl : ∀ s : List ℕ, bcOK s s = true := by
  intro s
  induction s with
  | nil => rfl
  | cons a t ih => simp_all [bcOK, List.zip_cons_cons]

theorem zipWith_max_self : ∀ s : List ℕ, List.zipWith max s s = s := by
  intro s
  induction s with
  | nil => rfl
  | cons a t ih => simp [List.zipWith_cons_cons, ih]

theorem idxList_length : ∀ s : List ℕ, (idxList s).length = s.prod := by
  intro s
  induction s with
  | nil => rfl
  | cons d ds ih =>
    rw [idxList, cat_length, List.map_map]
    have : (List.length ∘ fun i => (idxList ds).map (i :: ·)) =
        fun _ : ℕ => (idxList ds).length := by
      funext i; simp
    rw [this, List.map_const', List.sum_replicate, List.length_range,
      smul_eq_mul, ih, List.prod_cons]

/-! ### The per-case expected outputs of `DataLoader` -/

/-- Volumes a case resolves to (junk `([], [])` when loading fails; only
used under a hypothesis that loading succeeded). -/
def caseVols (fsHigh fsLow : Dir) (case_name : String) : Volume × Volume :=
  match load_case fsHigh fsLow case_name with
  | .ok p => p
  | .error _ => ([], [])

/-- Expected input sequence contributed by one case: every slice of the
normalized low-res volume, resampled, in slice order. -/
def caseInputs (fsHigh fsLow : Dir) (shape : ℕ × ℕ) (case_name : String) :
    List Arr3 :=
  (normalize (caseVols fsHigh fsLow case_name).1).map (fun s => resample s shape)

/-- Expected target sequence contributed by one case: every slice of the
normalized high-res volume, resampled, in slice order. -/
def caseTargets (fsHigh fsLow : Dir) (shape : ℕ × ℕ) (case_name : String) :
    List Arr3 :=
  (normalize (caseVols fsHigh fsLow case_name).2).map (fun s => resample s shape)

/-! ### Claim theorems -/

/-- C1, counterexample: the claim "resample returns shape exactly
(H, W, 1) for every target shape (H, W)" fails at the 1×1 input slice
`[[0]]` and target shape `(1, 2)`: the target tuple is handed to
`cv2.resize` as `dsize = (width, height)`, so the output has 2 rows,
not `H = 1`. -/
theorem resample_shape_cex :
    ((resample [[(0:ℚ)]] (1, 2)).data).length ≠ 1 := by
  simp [resample, expandDimsLast, cv2Resize]

/-- C1, amended: for every nonempty input slice and every target shape
`(h, w)` with positive extents, `resample` returns a 32-bit float array
of shape `(w, h, 1)` — `w` rows, `h` columns, trailing channel axis of
size 1 — hence exactly `(h, w, 1)` precisely when `h = w`. -/
theorem resample_shape (s : Slice) (h w : ℕ) (_hh : h ≠ 0) (_hw : w ≠ 0)
    (_hs : s ≠ []) :
    (resample s (h, w)).data.length = w ∧
    (∀ row ∈ (resample s (h, w)).data, row.length = h) ∧
    (∀ row ∈ (resample s (h, w)).data, ∀ cell ∈ row, cell.length = 1) ∧
    (resample s (h, w)).dtype = DType.float32 := by
  refine ⟨?_, ?_, ?_, rfl⟩
  · simp [resample, expandDimsLast, cv2Resize]
  · intro row hrow
    obtain ⟨row0, hrow0, rfl⟩ := List.mem_map.mp hrow
    obtain ⟨r, hr, rfl⟩ := List.mem_map.mp hrow0
    simp
  · intro row hrow cell hcell
    obtain ⟨row0, hrow0, rfl⟩ := List.mem_map.mp hrow
    obtain ⟨q, hq, rfl⟩ := List.mem_map.mp hcell
    rfl

/-- C1, witness: the amended shape statement evaluated at the 1×1 slice
`[[0]]` and target `(1, 2)`. -/
theorem resample_shape_witness :
    ((1:ℕ) ≠ 0 ∧ (2:ℕ) ≠ 0 ∧ ([[(0:ℚ)]] : Slice) ≠ []) ∧
    ((resample [[(0:ℚ)]] (1, 2)).data.length = 2 ∧
     (∀ row ∈ (resample [[(0:ℚ)]] (1, 2)).data, row.length = 1) ∧
     (∀ row ∈ (resample [[(0:ℚ)]] (1, 2)).data, ∀ cell ∈ row, cell.length = 1) ∧
     (resample [[(0:ℚ)]] (1, 2)).dtype = DType.float32) :=
  ⟨⟨by decide, by decide, by simp⟩,
   resample_shape [[(0:ℚ)]] 1 2 (by decide) (by decide) (by simp)⟩

/-- C2: `calc_psvol` never computes a PSNR or SSIM value.  Line 13 of
`plot_utils.py` binds the per-slice dynamic range to a local `range`, but
lines 14–15 pass `data_range=rangeD`, a name that is bound nowhere, so
the first loop iteration raises `NameError` for every pair of non-empty
volumes, whatever the external metric functions are. -/
theorem calc_psvol_name_error (psnr ssim : Slice → Slice → ℚ → ℚ)
    (high low : List Slice) (hh : high ≠ []) (hl : low ≠ []) :
    calc_psvol psnr ssim high low = .error .nameError := by
  obtain ⟨h0, hs, rfl⟩ := List.exists_cons_of_ne_nil hh
  obtain ⟨l0, ls, rfl⟩ := List.exists_cons_of_ne_nil hl
  rfl

/-- C2, witness: the `NameError` observed on a concrete one-slice pair. -/
theorem calc_psvol_name_error_witness :
    (([[[(0:ℚ), 1]]] : List Slice) ≠ [] ∧ ([[[(0:ℚ), 1]]] : List Slice) ≠ []) ∧
    calc_psvol (fun _ _ _ => (0:ℚ)) (fun _ _ _ => (0:ℚ))
      [[[(0:ℚ), 1]]] [[[(0:ℚ), 1]]] = .error .nameError :=
  ⟨⟨by simp, by simp⟩, calc_psvol_name_error _ _ _ _ (by simp) (by simp)⟩

/-- C4: on a non-degenerate volume (`min ≠ max`), every entry of
`normalize v` lies in `[-1, 1]`, the output maximum is exactly `1` and
the output minimum is exactly `-1`. -/
theorem normalize_bounds (v : Volume) (hnd : vmin v ≠ vmax v) :
    (∀ x ∈ flat3 (normalize v), -1 ≤ x ∧ x ≤ 1) ∧
    vmax (normalize v) = 1 ∧ vmin (normalize v) = -1 :=
  normalize_core v hnd

/-- C4, witness: the bounds evaluated on the concrete volume
`[[[0, 2]]]`. -/
theorem normalize_bounds_witness :
    vmin [[[(0:ℚ), 2]]] ≠ vmax [[[(0:ℚ), 2]]] ∧
    ((∀ x ∈ flat3 (normalize [[[(0:ℚ), 2]]]), -1 ≤ x ∧ x ≤ 1) ∧
     vmax (normalize [[[(0:ℚ), 2]]]) = 1 ∧ vmin (normalize [[[(0:ℚ), 2]]]) = -1) := by
  have h : vmin [[[(0:ℚ), 2]]] ≠ vmax [[[(0:ℚ), 2]]] := by
    norm_num [vmin, vmax, flat3, cat, listMin, listMax]
  exact ⟨h, normalize_bounds _ h⟩

/-- C7: `calc_psvol` neither returns the two metric sequences on
equal-slice-count inputs nor raises a shape error on mismatched slice
counts: the unbound name `rangeD` raises `NameError` on the first
iteration either way.  Evaluated here at a 2-slice high volume paired
with a 1-slice low volume (mismatched slice counts), where the claim
expects `ShapeMismatchError`. -/
theorem calc_psvol_mismatch_eval :
    calc_psvol (fun _ _ _ => (0:ℚ)) (fun _ _ _ => (0:ℚ))
      [[[(0:ℚ)]], [[(0:ℚ)]]] [[[(0:ℚ)]]] = .error .nameError := rfl

/-- C8: `load_case` looks a case up under the key
`{case number}.nii.gz`, where the case number is the last `_`-delimited
token of the case name (`caseNum`); if either configured directory holds
no file of that name the call fails with the not-found error, and a
successful call returns exactly the volumes stored under that key in the
high-res and low-res directories. -/
theorem load_case_resolution (fsHigh fsLow : Dir) (case_name : String) :
    ((∀ p ∈ fsHigh, p.1 ≠ caseNum case_name ++ ".nii.gz") →
      load_case fsHigh fsLow case_name = .error .notFound) ∧
    ((∀ p ∈ fsLow, p.1 ≠ caseNum case_name ++ ".nii.gz") →
      load_case fsHigh fsLow case_name = .error .notFound) ∧
    (∀ X1 X2, load_case fsHigh fsLow case_name = .ok (X1, X2) →
      (∃ p ∈ fsHigh, p.1 = caseNum case_name ++ ".nii.gz" ∧ p.2 = X2) ∧
      (∃ p ∈ fsLow, p.1 = caseNum case_name ++ ".nii.gz" ∧ p.2 = X1)) := by
  refine ⟨?_, ?_, ?_⟩
  · intro h
    simp only [load_case]
    rw [globFirst_none h]
  · intro h
    cases hH : globFirst fsHigh (caseNum case_name ++ ".nii.gz") with
    | error e =>
      have := globFirst_err hH
      subst this
      simp [load_case, hH]
    | ok target =>
      simp [load_case, hH, globFirst_none h]
  · intro X1 X2 hok
    simp only [load_case] at hok
    cases hH : globFirst fsHigh (caseNum case_name ++ ".nii.gz") with
    | error e => rw [hH] at hok; cases hok
    | ok target =>
      rw [hH] at hok
      cases hL : globFirst fsLow (caseNum case_name ++ ".nii.gz") with
      | error e => rw [hL] at hok; cases hok
      | ok inp =>
        rw [hL] at hok
        obtain ⟨rfl, rfl⟩ : inp = X1 ∧ target = X2 := by
          cases hok; exact ⟨rfl, rfl⟩
        obtain ⟨p, hp, hp1, hp2⟩ := globFirst_ok hH
        obtain ⟨q, hq, hq1, hq2⟩ := globFirst_ok hL
        exact ⟨⟨p, hp, hp1, hp2⟩, ⟨q, hq, hq1, hq2⟩⟩

/-- C8, witness: lookup of case `"a_1"` against empty directories fails
with the not-found error. -/
theorem load_case_resolution_witness :
    (∀ p ∈ ([] : Dir), p.1 ≠ caseNum "a_1" ++ ".nii.gz") ∧
    load_case [] [] "a_1" = .error .notFound :=
  ⟨by simp, (load_case_resolution [] [] "a_1").1 (by simp)⟩

/-- C9: on a constant-valued volume (`max = min`) the normalization
formula divides zero by zero for every element, so the IEEE-faithful
evaluation `normalizeFV` returns NaN at every position: the NaN is
silently propagated, no error is raised and no defined non-NaN fallback
value is produced. -/
theorem normalizeFV_const_nan (v : Volume) (hconst : vmax v = vmin v) :
    ∀ y ∈ flat3 (normalizeFV v), y = FV.nan := by
  intro y hy
  rw [show flat3 (normalizeFV v) = (flat3 v).map _ from flat3_map3 _ v] at hy
  obtain ⟨x, hx, rfl⟩ := List.mem_map.mp hy
  have h1 : vmin v ≤ x := listMin_le hx
  have h2 : x ≤ vmax v := le_listMax hx
  have hx0 : x - vmin v = 0 := by rw [hconst] at h2; linarith
  have hd0 : vmax v - vmin v = 0 := by rw [hconst]; ring
  simp [hx0, hd0, FV.div, FV.mul, FV.sub]

/-- C9, witness: the all-NaN output observed on the concrete constant
volume `[[[5, 5], [5, 5]]]`. -/
theorem normalizeFV_const_nan_witness :
    vmax [[[(5:ℚ), 5], [5, 5]]] = vmin [[[(5:ℚ), 5], [5, 5]]] ∧
    ∀ y ∈ flat3 (normalizeFV [[[(5:ℚ), 5], [5, 5]]]), y = FV.nan := by
  have h : vmax [[[(5:ℚ), 5], [5, 5]]] = vmin [[[(5:ℚ), 5], [5, 5]]] := by
    norm_num [vmax, vmin, flat3, cat, listMax, listMin]
  exact ⟨h, normalizeFV_const_nan _ h⟩

/-- C10: `normalize` is idempotent on non-degenerate input: after one
application the volume's minimum is `-1` and maximum is `1`, so the
second affine rescale is the identity (exact arithmetic). -/
theorem normalize_idempotent (v : Volume) (hnd : vmin v ≠ vmax v) :
    normalize (normalize v) = normalize v := by
  obtain ⟨-, hmax, hmin⟩ := normalize_core v hnd
  have hstep : normalize (normalize v) =
      map3 (fun x => ((x - -1) / (1 - -1)) * 2 - 1) (normalize v) := by
    rw [show normalize (normalize v) = map3 (fun x =>
      ((x - vmin (normalize v)) / (vmax (normalize v) - vmin (normalize v))) * 2 - 1)
      (normalize v) from rfl]
    simp only [hmax, hmin]
  rw [hstep]
  have hid : ∀ x : ℚ, ((x - -1) / (1 - -1)) * 2 - 1 = x := by intro x; ring
  simp only [hid]
  simp [map3]

/-- C10, witness: idempotence evaluated on the concrete volume
`[[[0, 2]]]`. -/
theorem normalize_idempotent_witness :
    vmin [[[(0:ℚ), 2]]] ≠ vmax [[[(0:ℚ), 2]]] ∧
    normalize (normalize [[[(0:ℚ), 2]]]) = normalize [[[(0:ℚ), 2]]] := by
  have h : vmin [[[(0:ℚ), 2]]] ≠ vmax [[[(0:ℚ), 2]]] := by
    norm_num [vmin, vmax, flat3, cat, listMin, listMax]
  exact ⟨h, normalize_idempotent _ h⟩

/-- C3, counterexample: a case whose high-res volume has 2 slices but
whose low-res volume has 1 slice (unequal slice counts) does NOT abort
the build: the loop runs over the low-res slice count only, the surplus
high-res slice is silently dropped, and a (truncated) dataset is
returned. -/
theorem DataLoader_mismatch_cex :
    DataLoader [("7.nii.gz", [[[(0:ℚ), 2]], [[1, 3]]])]
      [("7.nii.gz", [[[(0:ℚ), 4]]])] ["case_7"] (1, 1)
      = .ok ([⟨[[[-1]]], .float32⟩], [⟨[[[-1]]], .float32⟩]) := by
  have hk : caseNum "case_7" ++ ".nii.gz" = "7.nii.gz" := by decide
  norm_num [DataLoader, load_case, hk, globFirst, List.filter, processCase,
    normalize, map3, vmin, vmax, flat3, cat, listMin, listMax, resample,
    cv2Resize, expandDimsLast, List.range_succ]

/-- C3, amended: a slice-count mismatch aborts the build (with an index
error, and no dataset is returned) exactly when the low-res volume has
MORE slices than the high-res one; when it has fewer, the case
contributes its low-res slice count of pairs and the surplus high-res
slices are silently dropped. -/
theorem DataLoader_mismatch (fsHigh fsLow : Dir) (case_name : String)
    (shape : ℕ × ℕ) (X1 X2 : Volume)
    (hload : load_case fsHigh fsLow case_name = .ok (X1, X2)) :
    (X2.length < X1.length →
      DataLoader fsHigh fsLow [case_name] shape = .error .indexError) ∧
    (X1.length ≤ X2.length →
      DataLoader fsHigh fsLow [case_name] shape =
        .ok ((normalize X1).map (fun s => resample s shape),
             ((normalize X2).take X1.length).map (fun s => resample s shape))) := by
  constructor
  · intro hlt
    have hlt' : (normalize X2).length < (normalize X1).length := by
      rw [normalize_length, normalize_length]; exact hlt
    simp [DataLoader, hload, processCase_err shape _ _ hlt']
  · intro hle
    have hle' : (normalize X1).length ≤ (normalize X2).length := by
      rw [normalize_length, normalize_length]; exact hle
    have hproc := processCase_trunc shape (normalize X1) (normalize X2) hle'
    rw [normalize_length] at hproc
    simp [DataLoader, hload, hproc]

/-- C3, witness: a case whose low-res volume has 2 slices but whose
high-res volume has 1 slice aborts the build with an index error. -/
theorem DataLoader_mismatch_witness :
    load_case [("7.nii.gz", [[[(0:ℚ), 2]]])]
      [("7.nii.gz", [[[(0:ℚ), 4]], [[1, 3]]])] "case_7"
      = .ok ([[[(0:ℚ), 4]], [[1, 3]]], [[[(0:ℚ), 2]]]) ∧
    DataLoader [("7.nii.gz", [[[(0:ℚ), 2]]])]
      [("7.nii.gz", [[[(0:ℚ), 4]], [[1, 3]]])] ["case_7"] (1, 1)
      = .error .indexError := by
  have hk : caseNum "case_7" ++ ".nii.gz" = "7.nii.gz" := by decide
  have hload : load_case [("7.nii.gz", [[[(0:ℚ), 2]]])]
      [("7.nii.gz", [[[(0:ℚ), 4]], [[1, 3]]])] "case_7"
      = .ok ([[[(0:ℚ), 4]], [[1, 3]]], [[[(0:ℚ), 2]]]) := by
    simp [load_case, hk, globFirst, List.filter]
  exact ⟨hload,
    (DataLoader_mismatch _ _ _ (1, 1) _ _ hload).1 (by norm_num)⟩

/-- C5: when every case in the list loads successfully and has matching
slice counts, `DataLoader` succeeds and returns exactly the
concatenation, in case-list order, of each case's per-slice resampled
inputs and targets (within-case slice order preserved, slice `i` of a
case's input paired with slice `i` of the same case's target), and both
output lengths equal the sum of the per-case slice counts. -/
theorem DataLoader_build (fsHigh fsLow : Dir) (case_list : List String)
    (shape : ℕ × ℕ)
    (h : ∀ name ∈ case_list, ∃ X1 X2,
      load_case fsHigh fsLow name = .ok (X1, X2) ∧ X1.length = X2.length) :
    DataLoader fsHigh fsLow case_list shape =
      .ok (cat (case_list.map (caseInputs fsHigh fsLow shape)),
           cat (case_list.map (caseTargets fsHigh fsLow shape))) ∧
    (cat (case_list.map (caseInputs fsHigh fsLow shape))).length =
      (case_list.map (fun n => (caseVols fsHigh fsLow n).1.length)).sum ∧
    (cat (case_list.map (caseTargets fsHigh fsLow shape))).length =
      (case_list.map (fun n => (caseVols fsHigh fsLow n).1.length)).sum := by
  induction case_list with
  | nil => exact ⟨rfl, rfl, rfl⟩
  | cons n rest ih =>
    obtain ⟨X1, X2, hload, hlen⟩ := h n (List.mem_cons_self _ _)
    obtain ⟨ih1, ih2, ih3⟩ := ih (fun m hm => h m (List.mem_cons_of_mem _ hm))
    have hvols : caseVols fsHigh fsLow n = (X1, X2) := by simp [caseVols, hload]
    have hle : (normalize X1).length ≤ (normalize X2).length := by
      rw [normalize_length, normalize_length, hlen]
    have hproc := processCase_trunc shape (normalize X1) (normalize X2) hle
    have htake : (normalize X2).take (normalize X1).length = normalize X2 :=
      List.take_of_length_le (by rw [normalize_length, normalize_length, hlen])
    rw [htake] at hproc
    refine ⟨?_, ?_, ?_⟩
    · simp only [DataLoader, hload, hproc, ih1, List.map_cons]
      simp [cat, caseInputs, caseTargets, hvols]
    · simp [cat, caseInputs, caseTargets, hvols, normalize_length, ih2]
    · simp [cat, caseInputs, caseTargets, hvols, normalize_length, ih3, hlen]

/-- C5, witness: the assembly guarantee evaluated on a one-case list
with equal slice counts. -/
theorem DataLoader_build_witness :
    (∀ name ∈ ["case_7"], ∃ X1 X2,
      load_case [("7.nii.gz", [[[(0:ℚ), 2]]])] [("7.nii.gz", [[[(0:ℚ), 4]]])] name
        = .ok (X1, X2) ∧ X1.length = X2.length) ∧
    DataLoader [("7.nii.gz", [[[(0:ℚ), 2]]])] [("7.nii.gz", [[[(0:ℚ), 4]]])]
      ["case_7"] (1, 1) =
      .ok (cat (["case_7"].map
             (caseInputs [("7.nii.gz", [[[(0:ℚ), 2]]])] [("7.nii.gz", [[[(0:ℚ), 4]]])] (1, 1))),
           cat (["case_7"].map
             (caseTargets [("7.nii.gz", [[[(0:ℚ), 2]]])] [("7.nii.gz", [[[(0:ℚ), 4]]])] (1, 1)))) := by
  have hk : caseNum "case_7" ++ ".nii.gz" = "7.nii.gz" := by decide
  have hyp : ∀ name ∈ ["case_7"], ∃ X1 X2,
      load_case [("7.nii.gz", [[[(0:ℚ), 2]]])] [("7.nii.gz", [[[(0:ℚ), 4]]])] name
        = .ok (X1, X2) ∧ X1.length = X2.length := by
    intro name hn
    rw [List.mem_singleton] at hn
    subst hn
    exact ⟨[[[(0:ℚ), 4]]], [[[(0:ℚ), 2]]],
      by simp [load_case, hk, globFirst, List.filter], rfl⟩
  exact ⟨hyp, (DataLoader_build _ _ _ _ hyp).1⟩

/-- C6, counterexample: `mae(x, x) == 0` fails for the empty array: the
mean of an empty array is NaN, so `mae` returns NaN, not `0`. -/
theorem mae_calc_empty_cex :
    mae_calc ⟨[0], []⟩ ⟨[0], []⟩ ≠ .ok (.fin 0) := by
  have hval : mae_calc ⟨[0], []⟩ ⟨[0], []⟩ = .ok .nan := by
    simp [mae_calc, npSub, padShape, bcOK, idxList, cat, npMean]
  rw [hval]
  simp

/-- C6, amended: `mae(x, x) = 0` for every array with at least one
element (an array with a zero extent yields NaN, numpy's mean of an
empty array); and `mae` fails with the shape-mismatch (broadcast) error
for every pair of arrays whose shapes are not broadcast-compatible. -/
theorem mae_props (x y : NDArr) :
    (x.shape.prod ≠ 0 → mae_calc x x = .ok (.fin 0)) ∧
    (compatible x.shape y.shape = false →
      mae_calc x y = .error .shapeMismatch) := by
  constructor
  · intro hprod
    have hsub : npSub x x = .ok ⟨x.shape, List.replicate x.shape.prod 0⟩ := by
      unfold npSub
      simp only [max_self, padShape_self, bcOK_refl, if_true, zipWith_max_self]
      congr 1
      simp [sub_self, List.map_const', idxList_length]
    unfold mae_calc
    rw [hsub]
    simp [npMean, List.length_replicate, hprod, List.map_replicate,
      List.sum_replicate]
  · intro hcomp
    unfold compatible at hcomp
    unfold mae_calc npSub
    simp only [hcomp]
    simp

/-- C6, witness: `mae` evaluated at a concrete nonempty array against
itself, and at a concrete non-broadcastable pair of shapes. -/
theorem mae_props_witness :
    (((⟨[2], [1, 2]⟩ : NDArr).shape.prod ≠ 0 ∧
      mae_calc ⟨[2], [1, 2]⟩ ⟨[2], [1, 2]⟩ = .ok (.fin 0))) ∧
    ((compatible [2] [3] = false ∧
      mae_calc ⟨[2], [1, 2]⟩ ⟨[3], [0, 0, 0]⟩ = .error .shapeMismatch)) :=
  ⟨⟨by decide, (mae_props ⟨[2], [1, 2]⟩ ⟨[2], [1, 2]⟩).1 (by decide)⟩,
   ⟨by decide, (mae_props ⟨[2], [1, 2]⟩ ⟨[3], [0, 0, 0]⟩).2 (by decide)⟩⟩

end Denoise
